import Mathlib

/-!
Shallow embedding of the worker-pool / job-queue subsystem of the
`discord-agent-js` repository, together with theorems settling the
specification claims about it.

Modelling conventions:
* JavaScript strings are modelled as `List Char` (`JSStr`), so that every
  operation is structurally recursive and kernel-computable.
* The Redis store is modelled as an association list from keys to values
  (`Store`), with `get`/`set`/`keysPat` mirroring the redis commands the
  code issues (`GET`, `SET`, `KEYS pattern`).
* JavaScript numbers that the code stores are the small integer status
  codes and timestamps; they are modelled as `Nat`, with `Number(s)`
  on the digit strings the system writes modelled by `parseNatChars`.
* Asynchronous code is embedded as explicit sequential state passing in
  the order the `await`s force; fire-and-forget promise chains are
  embedded by recording both the state at promise resolution and the
  state after the background continuation runs, plus an ordered event
  trace.
-/

abbrev JSStr := List Char

/-- Coerce a Lean string literal to the `List Char` model of a JS string. -/
def str (s : String) : JSStr := s.data

/-- JavaScript `s.split(sep)` for a single-character separator:
`"".split(sep) = [""]`, a trailing separator yields a trailing empty part. -/
def splitOnChar (sep : Char) : JSStr → List JSStr
  | [] => [[]]
  | c :: cs =>
    match splitOnChar sep cs with
    | [] => if c = sep then [[], []] else [[c]]
    | r :: rs => if c = sep then [] :: r :: rs else (c :: r) :: rs

/-- JavaScript `<` on strings: lexicographic comparison by code unit,
a strict prefix compares smaller. -/
def strLt : JSStr → JSStr → Bool
  | [], [] => false
  | [], _ :: _ => true
  | _ :: _, [] => false
  | a :: as, b :: bs => if a = b then strLt as bs else decide (a < b)

/-- JavaScript `Array.prototype.join` with separator `':'`. -/
def joinColon : List JSStr → JSStr
  | [] => []
  | [x] => x
  | x :: xs => x ++ ':' :: joinColon xs

/-- JavaScript `hay.includes(needle)` (substring containment). -/
def strContains (hay needle : JSStr) : Bool :=
  hay.tails.any (fun t => needle.isPrefixOf t)

/-- Helper for `globMatch`: try the continuation `f` on every suffix of the
string (the `*` wildcard consumes zero or more characters). -/
def starLoop (f : JSStr → Bool) : JSStr → Bool
  | [] => f []
  | d :: ds => f (d :: ds) || starLoop f ds

/-- Redis `KEYS` glob matching restricted to the `*` wildcard, the only
glob character the code's patterns use. -/
def globMatch : JSStr → JSStr → Bool
  | [], s => s.isEmpty
  | c :: ps, s =>
    if c = '*' then starLoop (globMatch ps) s
    else
      match s with
      | [] => false
      | d :: ds => decide (c = d) && globMatch ps ds

/-- Parse a digit string to a number. On every value this system writes to
the store (decimal numerals) this agrees with JavaScript `Number`, and on
garbage it returns `none` exactly when `Number` returns `NaN` or a falsy
value, which is all the downstream code distinguishes. -/
def parseNatChars (s : JSStr) : Option Nat :=
  if s = [] then none
  else
    s.foldl (fun acc c =>
      match acc with
      | none => none
      | some n => if '0' ≤ c ∧ c ≤ '9' then some (n * 10 + (c.toNat - '0'.toNat)) else none)
      (some 0)

/-- Helper for `natToChars`: prepend the decimal digits of `n` to `acc`,
with structural fuel so the kernel can evaluate it. -/
def natToCharsGo : Nat → Nat → JSStr → JSStr
  | 0, _, acc => acc
  | fuel + 1, n, acc =>
    let d := Char.ofNat (48 + n % 10)
    if n < 10 then d :: acc else natToCharsGo fuel (n / 10) (d :: acc)

/-- Decimal rendering of a `Nat`, as JavaScript template interpolation and
`JSON.stringify` render the integers this system stores (`fuel = n + 1`
always suffices since a numeral has at most `n + 1` digits). -/
def natToChars (n : Nat) : JSStr := natToCharsGo (n + 1) n []

/-- Worker state machine codes from `types/worker.ts`:
`enum STATE { INITIALIZING, IDLE, BUSY, TERMINATING }`. -/
def STATE.INITIALIZING : Nat := 0

def STATE.IDLE : Nat := 1

def STATE.BUSY : Nat := 2

def STATE.TERMINATING : Nat := 3

/-- The shared key-value store (Redis), as an association list. -/
abbrev Store := List (JSStr × JSStr)

/-- Redis `GET key` (first binding wins; keys are unique in every store the
system builds). -/
def Store.get : Store → JSStr → Option JSStr
  | [], _ => none
  | e :: rest, k => if e.1 = k then some e.2 else Store.get rest k

/-- Redis `SET key value`. -/
def Store.set : Store → JSStr → JSStr → Store
  | [], k, v => [(k, v)]
  | e :: rest, k, v => if e.1 = k then (k, v) :: rest else e :: Store.set rest k v

/-- Redis `KEYS pattern`. -/
def Store.keysPat (st : Store) (pat : JSStr) : List JSStr :=
  (st.map Prod.fst).filter (fun k => globMatch pat k)

/-! ## Job (`src/agents/job.ts` / `src/agents/index.ts`) -/

/-- One parsed entry of `Job.sortListByKeys`'s intermediate list:
`{ jobId, jobKey, sortKey }`. -/
structure JobEntry where
  jobId : JSStr
  jobKey : JSStr
  sortKey : JSStr
deriving DecidableEq, Repr

/-- The body of the `reduce` in `Job.sortListByKeys`: destructure
`jobKey.split(':')` as `[, jobId, priority, createdAt]` and drop the key
when any of the three is `undefined` or `''` (JS falsiness). -/
def parseJobKey (jobKey : JSStr) : Option JobEntry :=
  let parts := splitOnChar ':' jobKey
  match parts.get? 1, parts.get? 2, parts.get? 3 with
  | some jobId, some priority, some createdAt =>
    if jobId = [] ∨ priority = [] ∨ createdAt = [] then none
    else some { jobId := jobId, jobKey := jobKey, sortKey := priority ++ ':' :: createdAt }
  | _, _, _ => none

/-- The sort comparator of `Job.sortListByKeys` as a boolean `≤`:
the JS comparator returns `0` when the `sortKey` strings are equal and
otherwise `-1`/`1` by JS string `<`. -/
def sortKeyLe (a b : JobEntry) : Bool :=
  a.sortKey = b.sortKey || strLt a.sortKey b.sortKey

/-- The comparator as a relation. -/
abbrev sortKeyRel (a b : JobEntry) : Prop := sortKeyLe a b = true

instance : DecidableRel sortKeyRel := fun a b => Bool.decEq (sortKeyLe a b) true

/-- Embedding of `Job.sortListByKeys`: parse every key, discard malformed ones, then
sort by ascending string comparison of `sortKey`. `Array.prototype.sort`
with a consistent comparator is a stable sort, and for a total preorder the
stable sort is unique, so the stable `insertionSort` is its extensionally
faithful embedding. -/
def Job.sortListByKeys (jobKeyList : List JSStr) : List JobEntry :=
  (jobKeyList.filterMap parseJobKey).insertionSort sortKeyRel

/-- The `Job` class instance fields: `jobId`, `data`, `engine`,
`priority`, `createdAt`. The payload type is kept abstract. -/
structure JobRec (α : Type) where
  jobId : JSStr
  data : α
  engine : JSStr
  priority : Nat
  createdAt : Nat
deriving DecidableEq, Repr

/-- The `CreateJob` input shape: the `Job` fields without `jobId` and `createdAt`, with `priority` optional. -/
structure CreateJob (α : Type) where
  data : α
  engine : JSStr
  priority : Option Nat
deriving DecidableEq, Repr

/-- The `Job` constructor: `createdAt = Date.now()` (the current time is the
explicit `now` argument), `priority = config.priority ?? 0`, and the `jobId`
argument (defaulted to a fresh UUID at the call sites that omit it). -/
def Job.create {α : Type} (now : Nat) (config : CreateJob α) (jobId : JSStr) : JobRec α :=
  { jobId := jobId
    data := config.data
    engine := config.engine
    priority := config.priority.getD 0
    createdAt := now }

/-- The `key` getter: `` `job:${this.jobId}:${this.priority}:${this.createdAt}` ``. -/
def Job.key {α : Type} (j : JobRec α) : JSStr :=
  str "job:" ++ j.jobId ++ ':' :: natToChars j.priority ++ ':' :: natToChars j.createdAt

/-- The plain structural representation produced by `toJSON` (and the
`JobTypes.Job` shape consumed by `fromExisting`). -/
structure JobJSON (α : Type) where
  jobId : JSStr
  data : α
  engine : JSStr
  priority : Nat
  createdAt : Nat
deriving DecidableEq, Repr

/-- Embedding of `toJSON()`: the five fields, copied. -/
def Job.toJSON {α : Type} (j : JobRec α) : JobJSON α :=
  { jobId := j.jobId, data := j.data, engine := j.engine
    priority := j.priority, createdAt := j.createdAt }

/-- Embedding of `Job.fromExisting(job) = new Job(job, job.jobId)`: the constructor reads
`data`, `engine` and `priority` from its argument but stamps a fresh
`createdAt = Date.now()` (the `now` argument here); the stored `createdAt`
of the existing job is ignored. -/
def Job.fromExisting {α : Type} (now : Nat) (job : JobJSON α) : JobRec α :=
  Job.create now { data := job.data, engine := job.engine, priority := some job.priority } job.jobId

/-! ## Worker utilities (`src/agents/worker/utilities.ts`) -/

/-- The key `worker:` followed by the worker id and `:status`. -/
def workerStatusKey (workerId : JSStr) : JSStr :=
  str "worker:" ++ workerId ++ str ":status"

/-- The key `worker:` followed by the worker id and `:job`. -/
def workerJobKey (workerId : JSStr) : JSStr :=
  str "worker:" ++ workerId ++ str ":job"

/-- Embedding of `setWorkerStatus`: a `set` on the worker status key. -/
def setWorkerStatus (workerId : JSStr) (status : Nat) (st : Store) : Store :=
  st.set (workerStatusKey workerId) (natToChars status)

/-- Embedding of `setWorkerJob`: a `set` on the worker job key. -/
def setWorkerJob (workerId jobId : JSStr) (st : Store) : Store :=
  st.set (workerJobKey workerId) jobId

/-- Embedding of `getWorkerJob`: a `get` on the worker job key. -/
def getWorkerJob (workerId : JSStr) (st : Store) : Option JSStr :=
  st.get (workerJobKey workerId)

/-- The expression `Number(status) || STATE.IDLE` applied to a fetched status value
(`none` models a `null` reply, whose `Number` is `0` and hence falsy). -/
def statusOfValue (v : Option JSStr) : Nat :=
  match v with
  | none => STATE.IDLE
  | some s =>
    match parseNatChars s with
    | none => STATE.IDLE
    | some n => if n = 0 then STATE.IDLE else n

/-- Embedding of `getWorkerStatus`: check `keys` on the status key; when the key is
absent, write `STATE.IDLE` to it and return `IDLE`; otherwise return
`Number(get(key)) || STATE.IDLE`. Returns the status together with the
possibly-updated store. -/
def getWorkerStatus (workerId : JSStr) (st : Store) : Nat × Store :=
  let key := workerStatusKey workerId
  if (st.keysPat key).length > 0 then
    (statusOfValue (st.get key), st)
  else
    (STATE.IDLE, st.set key (natToChars STATE.IDLE))

/-- Embedding of `getAllWorkers`: a `keys` scan for `worker:*:status`. -/
def getAllWorkers (st : Store) : List JSStr :=
  st.keysPat (str "worker:*:status")

/-- Embedding of `getActiveWorkers`: the code issues `get('worker:*:job')` — a literal
redis `GET` of the exact key `worker:*:job`, not a `KEYS` pattern scan. -/
def getActiveWorkers (st : Store) : Option JSStr :=
  st.get (str "worker:*:job")

/-! ## Worker runtime (`src/agents/worker/index.ts`) -/

/-- Observable events of a worker-runtime execution, in program order. -/
inductive WEvent where
  | statusWrite (workerId : JSStr) (status : Nat)
  | jobWrite (workerId : JSStr) (jobId : JSStr)
  | processStart (jobId : JSStr)
  | jobNotFoundThrow (jobId : JSStr)
  | jobFinished (jobId : JSStr)
  | errorLog
deriving DecidableEq, Repr

/-- Embedding of `Worker.processJob(jobId)`. Its `loadJob` scans the keys matching the job id,
takes the first key, and throws `Job not found` when there is none; the
throw propagates out of `processJob` (there is no try/catch), so the final
`setStatus(IDLE)` / `setWorkerJob('')` lines are skipped in that case.
Returns the store, the event trace, and `true` when no exception escaped. -/
def processJob (workerId jobId : JSStr) (st : Store) : Store × List WEvent × Bool :=
  match (st.keysPat (str "job:" ++ jobId ++ ['*'])).head? with
  | none =>
    (st, [WEvent.processStart jobId, WEvent.jobNotFoundThrow jobId], false)
  | some _ =>
    let st1 := setWorkerStatus workerId STATE.IDLE st
    let st2 := setWorkerJob workerId [] st1
    (st2,
      [WEvent.processStart jobId, WEvent.jobFinished jobId,
        WEvent.statusWrite workerId STATE.IDLE, WEvent.jobWrite workerId []],
      true)

/-- Embedding of `Worker.onMessage`: `await setStatus(BUSY)`, then
`await setWorkerJob(id)`, then `await processJob(id)` — strictly in this
order. -/
def onMessage (workerId jobId : JSStr) (st : Store) : Store × List WEvent × Bool :=
  let st1 := setWorkerStatus workerId STATE.BUSY st
  let st2 := setWorkerJob workerId jobId st1
  let r := processJob workerId jobId st2
  (r.1, WEvent.statusWrite workerId STATE.BUSY :: WEvent.jobWrite workerId jobId :: r.2.1, r.2.2)

/-- The recovery part of `Worker.setupRedis`: read the persisted status via
`getWorkerStatus`; when it is `BUSY`, read the persisted job id: a truthy
(non-null, non-empty) id is resumed through `processJob`, otherwise an
error is logged and the status reset to `IDLE`. -/
def setupRedis (workerId : JSStr) (st : Store) : Store × List WEvent × Bool :=
  let r0 := getWorkerStatus workerId st
  let st1 := r0.2
  if r0.1 = STATE.BUSY then
    let errBranch : Store × List WEvent × Bool :=
      (setWorkerStatus workerId STATE.IDLE st1,
        [WEvent.errorLog, WEvent.statusWrite workerId STATE.IDLE], true)
    match getWorkerJob workerId st1 with
    | some jobId => if jobId ≠ [] then processJob workerId jobId st1 else errBranch
    | none => errBranch
  else
    (st1, [], true)

/-! ## Worker pool (`src/agents/pool.ts`) -/

/-- Events of `WorkerPool.addJob`, in the order they occur: the promise
returned by `addJob` resolves first (nothing in the body is awaited), the
fire-and-forget `set` completes later, and its `.then` continuation then
triggers `assignAvailableWorkers`. -/
inductive PoolEvent where
  | promiseResolved
  | storeSetCompleted (key : JSStr)
  | assignTriggered
deriving DecidableEq, Repr

/-- Outcome of one `WorkerPool.addJob` call. -/
structure AddJobOutcome (α : Type) where
  job : JobRec α
  jobKey : JSStr
  storeAtResolve : Store
  storeAfterPersist : Store
  events : List PoolEvent
deriving Repr

/-- Embedding of `WorkerPool.addJob(jobDetails)`: build the `Job` (fresh `jobId`,
`createdAt = Date.now()` — both explicit parameters here), derive
`['job', jobId, priority, createdAt].join(':')`, and issue
`set(jobKey, JSON.stringify(newJob))` without awaiting it: the promise
returned by `addJob` resolves with the store untouched, and the store
contains the job only after the background `set` completes. `serialize`
stands for `JSON.stringify` on the opaque payload. -/
def WorkerPool.addJob {α : Type} (st : Store) (jobDetails : CreateJob α)
    (jobId : JSStr) (now : Nat) (serialize : JobRec α → JSStr) : AddJobOutcome α :=
  let newJob := Job.create now jobDetails jobId
  let jobKey := joinColon
    [str "job", newJob.jobId, natToChars newJob.priority, natToChars newJob.createdAt]
  { job := newJob
    jobKey := jobKey
    storeAtResolve := st
    storeAfterPersist := st.set jobKey (serialize newJob)
    events := [PoolEvent.promiseResolved, PoolEvent.storeSetCompleted jobKey,
      PoolEvent.assignTriggered] }

/-- Embedding of `WorkerPool.getJobs()`: sort the keys matching `job:*`. -/
def WorkerPool.getJobs (st : Store) : List JobEntry :=
  Job.sortListByKeys (st.keysPat (str "job:*"))

/-- The predicate `!activeJobs?.includes(jobId)` — the filter over pending jobs
(the *kept* condition): `activeJobs` is the `GET worker:*:job` reply, so a
`null` reply keeps every job. -/
def keptByActiveFilter (activeJobs : Option JSStr) (jobId : JSStr) : Bool :=
  match activeJobs with
  | none => true
  | some s => !(strContains s jobId)

/-- Embedding of `WorkerPool.assignAvailableWorkers()`: fetch the sorted pending-job
list and `getActiveWorkers` once, then for each registered worker (in map
insertion order) read its status from the store and, when `IDLE`, dispatch
`jobList.filter(j => !activeJobs?.includes(j.jobId)).shift()`. The
`filter` builds a fresh array each iteration, so the `shift` does not
remove the job from `jobList` itself. Returns the (possibly updated) store
and the list of `(workerId, jobId)` dispatches posted during the pass. -/
def WorkerPool.assignAvailableWorkers (workerIds : List JSStr) (st : Store) :
    Store × List (JSStr × JSStr) :=
  let jobList := WorkerPool.getJobs st
  let activeJobs := getActiveWorkers st
  workerIds.foldl
    (fun acc workerId =>
      let r := getWorkerStatus workerId acc.1
      if r.1 = STATE.IDLE then
        match (jobList.filter (fun j => keptByActiveFilter activeJobs j.jobId)).head? with
        | some job => (r.2, acc.2 ++ [(workerId, job.jobId)])
        | none => (r.2, acc.2)
      else (r.2, acc.2))
    (st, [])

/-! ### Lemmas about the string and store model -/

theorem splitOnChar_ne_nil (sep : Char) (s : JSStr) : splitOnChar sep s ≠ [] := by
  cases s with
  | nil => simp [splitOnChar]
  | cons c cs =>
    simp only [splitOnChar]
    split <;> split <;> simp

theorem splitOnChar_no_sep (sep : Char) (s : JSStr) (h : sep ∉ s) :
    splitOnChar sep s = [s] := by
  induction s with
  | nil => rfl
  | cons c cs ih =>
    have hc : c ≠ sep := by rintro rfl; exact h (List.mem_cons_self _ _)
    have hcs : sep ∉ cs := fun hm => h (List.mem_cons_of_mem _ hm)
    simp only [splitOnChar, ih hcs]
    rw [if_neg hc]

theorem splitOnChar_append (sep : Char) (a b : JSStr) (ha : sep ∉ a) :
    splitOnChar sep (a ++ sep :: b) = a :: splitOnChar sep b := by
  induction a with
  | nil =>
    cases hb : splitOnChar sep b with
    | nil => exact absurd hb (splitOnChar_ne_nil sep b)
    | cons r rs => simp [splitOnChar, hb]
  | cons x xs ih =>
    have hx : x ≠ sep := by rintro rfl; exact ha (List.mem_cons_self _ _)
    have hxs : sep ∉ xs := fun hm => ha (List.mem_cons_of_mem _ hm)
    simp only [List.cons_append, splitOnChar, List.append_eq, ih hxs]
    rw [if_neg hx]

theorem strLt_trans (a b c : JSStr) (h1 : strLt a b = true) (h2 : strLt b c = true) :
    strLt a c = true := by
  induction a generalizing b c with
  | nil =>
    cases b with
    | nil => simp [strLt] at h1
    | cons y ys =>
      cases c with
      | nil => simp [strLt] at h2
      | cons z zs => simp [strLt]
  | cons x xs ih =>
    cases b with
    | nil => simp [strLt] at h1
    | cons y ys =>
      cases c with
      | nil => simp [strLt] at h2
      | cons z zs =>
        simp only [strLt] at h1 h2 ⊢
        by_cases hxy : x = y
        · subst hxy
          rw [if_pos rfl] at h1
          by_cases hxz : x = z
          · subst hxz
            rw [if_pos rfl] at h2 ⊢
            exact ih ys zs h1 h2
          · rw [if_neg hxz] at h2 ⊢
            exact h2
        · rw [if_neg hxy] at h1
          have hxy' : x < y := of_decide_eq_true h1
          by_cases hyz : y = z
          · subst hyz
            rw [if_neg hxy]
            exact h1
          · rw [if_neg hyz] at h2
            have hyz' : y < z := of_decide_eq_true h2
            have hxz' : x < z := lt_trans hxy' hyz'
            rw [if_neg (ne_of_lt hxz')]
            exact decide_eq_true hxz'

theorem strLt_eq_of_false (a b : JSStr) (h1 : strLt a b = false)
    (h2 : strLt b a = false) : a = b := by
  induction a generalizing b with
  | nil =>
    cases b with
    | nil => rfl
    | cons y ys => simp [strLt] at h1
  | cons x xs ih =>
    cases b with
    | nil => simp [strLt] at h2
    | cons y ys =>
      simp only [strLt] at h1 h2
      by_cases hxy : x = y
      · subst hxy
        rw [if_pos rfl] at h1 h2
        rw [ih ys h1 h2]
      · rw [if_neg hxy] at h1
        rw [if_neg (Ne.symm hxy)] at h2
        have hnlt1 : ¬ x < y := of_decide_eq_false h1
        have hnlt2 : ¬ y < x := of_decide_eq_false h2
        exact absurd (le_antisymm (le_of_not_lt hnlt2) (le_of_not_lt hnlt1)) hxy

theorem sortKeyRel_total (a b : JobEntry) : sortKeyRel a b ∨ sortKeyRel b a := by
  by_cases h : a.sortKey = b.sortKey
  · left; simp [sortKeyRel, sortKeyLe, h]
  · by_cases h2 : strLt a.sortKey b.sortKey = true
    · left; simp [sortKeyRel, sortKeyLe, h2]
    · right
      have h2' : strLt a.sortKey b.sortKey = false := Bool.eq_false_iff.mpr h2
      have h3 : strLt b.sortKey a.sortKey = true := by
        rcases Bool.eq_false_or_eq_true (strLt b.sortKey a.sortKey) with ht | hf
        · exact ht
        · exact absurd (strLt_eq_of_false _ _ h2' hf) h
      simp [sortKeyRel, sortKeyLe, h3]

theorem sortKeyRel_trans (a b c : JobEntry) (h1 : sortKeyRel a b)
    (h2 : sortKeyRel b c) : sortKeyRel a c := by
  simp only [sortKeyRel, sortKeyLe, Bool.or_eq_true, decide_eq_true_eq] at h1 h2 ⊢
  rcases h1 with h1 | h1 <;> rcases h2 with h2 | h2
  · left; exact h1.trans h2
  · right; rwa [h1]
  · right; rwa [← h2]
  · right; exact strLt_trans _ _ _ h1 h2

theorem parseJobKey_jobKey {k : JSStr} {e : JobEntry} (h : parseJobKey k = some e) :
    e.jobKey = k := by
  simp only [parseJobKey] at h
  split at h
  · split at h
    · exact absurd h (by simp)
    · cases h; rfl
  · exact absurd h (by simp)

theorem Store.get_set_self (st : Store) (k v : JSStr) : (st.set k v).get k = some v := by
  induction st with
  | nil => simp [Store.set, Store.get]
  | cons e rest ih =>
    by_cases h : e.1 = k
    · simp [Store.set, h, Store.get]
    · simp [Store.set, h, Store.get, ih]

theorem Store.get_set_ne (st : Store) (k v q : JSStr) (h : q ≠ k) :
    (st.set k v).get q = st.get q := by
  have hk : k ≠ q := Ne.symm h
  induction st with
  | nil => simp [Store.set, Store.get, hk]
  | cons e rest ih =>
    by_cases he : e.1 = k
    · simp [Store.set, he, Store.get, hk]
    · simp [Store.set, he, Store.get, ih]

theorem Store.mem_keys_set (st : Store) (k v : JSStr) : k ∈ (st.set k v).map Prod.fst := by
  induction st with
  | nil => simp [Store.set]
  | cons e rest ih =>
    by_cases he : e.1 = k
    · simp [Store.set, he]
    · simp only [Store.set, if_neg he, List.map_cons, List.mem_cons]
      exact Or.inr ih

theorem Store.get_eq_none_iff (st : Store) (k : JSStr) :
    st.get k = none ↔ k ∉ st.map Prod.fst := by
  induction st with
  | nil => simp [Store.get]
  | cons e rest ih =>
    by_cases he : e.1 = k
    · simp [Store.get, he]
    · simp only [Store.get, if_neg he, List.map_cons, List.mem_cons, ih]
      constructor
      · rintro hn (rfl | hm)
        · exact he rfl
        · exact hn hm
      · intro hn hm
        exact hn (Or.inr hm)

theorem starLoop_isEmpty_true (s : JSStr) : starLoop (fun x => List.isEmpty x) s = true := by
  induction s with
  | nil => rfl
  | cons d ds ih => simp [starLoop, ih]

theorem globMatch_star_suffix (p s : JSStr) (hp : '*' ∉ p) :
    globMatch (p ++ ['*']) s = true ↔ ∃ t, s = p ++ t := by
  induction p generalizing s with
  | nil =>
    simp only [List.nil_append]
    constructor
    · intro _; exact ⟨s, rfl⟩
    · intro _
      show globMatch ('*' :: []) s = true
      simp only [globMatch, if_pos rfl]
      exact starLoop_isEmpty_true s
  | cons c cs ih =>
    have hc : c ≠ '*' := by rintro rfl; exact hp (List.mem_cons_self _ _)
    have hcs : '*' ∉ cs := fun hm => hp (List.mem_cons_of_mem _ hm)
    cases s with
    | nil => simp [globMatch, hc]
    | cons d ds =>
      simp only [List.cons_append, globMatch, if_neg hc, Bool.and_eq_true,
        decide_eq_true_eq, List.append_eq]
      rw [ih ds hcs]
      constructor
      · rintro ⟨rfl, t, rfl⟩
        exact ⟨t, by simp⟩
      · rintro ⟨t, ht⟩
        injection ht with h1 h2
        exact ⟨h1.symm, t, h2⟩

theorem globMatch_no_star (p s : JSStr) (hp : '*' ∉ p) :
    globMatch p s = true ↔ p = s := by
  induction p generalizing s with
  | nil => cases s <;> simp [globMatch]
  | cons c cs ih =>
    have hc : c ≠ '*' := by rintro rfl; exact hp (List.mem_cons_self _ _)
    have hcs : '*' ∉ cs := fun hm => hp (List.mem_cons_of_mem _ hm)
    cases s with
    | nil => simp [globMatch, hc]
    | cons d ds =>
      simp [globMatch, if_neg hc, Bool.and_eq_true, decide_eq_true_eq, ih ds hcs,
        List.cons.injEq]

theorem natToCharsGo_mem (fuel n : Nat) (acc : JSStr) (c : Char)
    (hc : c ∈ natToCharsGo fuel n acc) :
    c ∈ acc ∨ ∃ m, m < 10 ∧ c = Char.ofNat (48 + m) := by
  induction fuel generalizing n acc with
  | zero => exact Or.inl hc
  | succ f ih =>
    simp only [natToCharsGo] at hc
    by_cases h : n < 10
    · rw [if_pos h] at hc
      rcases List.mem_cons.mp hc with h1 | h1
      · exact Or.inr ⟨n % 10, Nat.mod_lt _ (by norm_num), h1⟩
      · exact Or.inl h1
    · rw [if_neg h] at hc
      rcases ih _ _ hc with h1 | h1
      · rcases List.mem_cons.mp h1 with h2 | h2
        · exact Or.inr ⟨n % 10, Nat.mod_lt _ (by norm_num), h2⟩
        · exact Or.inl h2
      · exact Or.inr h1

theorem colon_not_mem_natToChars (n : Nat) : ':' ∉ natToChars n := by
  intro h
  rcases natToCharsGo_mem _ _ _ _ h with h1 | ⟨m, hm, he⟩
  · simp at h1
  · interval_cases m <;> exact absurd he (by decide)

theorem natToCharsGo_length (fuel n : Nat) (acc : JSStr) :
    acc.length ≤ (natToCharsGo fuel n acc).length := by
  induction fuel generalizing n acc with
  | zero => simp [natToCharsGo]
  | succ f ih =>
    simp only [natToCharsGo]
    by_cases h : n < 10
    · rw [if_pos h]; simp
    · rw [if_neg h]
      calc acc.length ≤ (Char.ofNat (48 + n % 10) :: acc).length := by simp
        _ ≤ _ := ih _ _

theorem natToChars_ne_nil (n : Nat) : natToChars n ≠ [] := by
  intro h
  simp only [natToChars, natToCharsGo] at h
  by_cases hn : n < 10
  · rw [if_pos hn] at h; simp at h
  · rw [if_neg hn] at h
    have hl := natToCharsGo_length n (n / 10) [Char.ofNat (48 + n % 10)]
    rw [h] at hl
    simp at hl

theorem star_not_mem_workerStatusKey (workerId : JSStr) (hw : '*' ∉ workerId) :
    '*' ∉ workerStatusKey workerId := by
  intro hm
  unfold workerStatusKey at hm
  simp only [List.append_assoc, List.mem_append] at hm
  rcases hm with h | h | h
  · exact (by decide : ('*' : Char) ∉ str "worker:") h
  · exact hw h
  · exact (by decide : ('*' : Char) ∉ str ":status") h

theorem workerStatusKey_ne_workerJobKey (workerId : JSStr) :
    workerStatusKey workerId ≠ workerJobKey workerId := by
  intro h
  unfold workerStatusKey workerJobKey at h
  simp only [List.append_assoc] at h
  have h2 := List.append_cancel_left h
  have h3 := List.append_cancel_left h2
  exact (by decide : str ":status" ≠ str ":job") h3

theorem getWorkerStatus_of_get_some (workerId : JSStr) (st : Store) (v : JSStr)
    (hw : '*' ∉ workerId) (hv : st.get (workerStatusKey workerId) = some v) :
    getWorkerStatus workerId st = (statusOfValue (some v), st) := by
  have hmem : workerStatusKey workerId ∈ st.map Prod.fst := by
    by_contra hnm
    rw [← Store.get_eq_none_iff] at hnm
    rw [hnm] at hv
    exact Option.noConfusion hv
  have hpat : workerStatusKey workerId ∈ st.keysPat (workerStatusKey workerId) := by
    unfold Store.keysPat
    exact List.mem_filter.mpr
      ⟨hmem, (globMatch_no_star _ _ (star_not_mem_workerStatusKey workerId hw)).mpr rfl⟩
  have hlen : 0 < (st.keysPat (workerStatusKey workerId)).length :=
    List.length_pos.mpr (fun hnil => by rw [hnil] at hpat; exact List.not_mem_nil _ hpat)
  unfold getWorkerStatus
  rw [if_pos hlen, hv]

theorem getWorkerStatus_of_get_none (workerId : JSStr) (st : Store)
    (hw : '*' ∉ workerId) (hv : st.get (workerStatusKey workerId) = none) :
    getWorkerStatus workerId st
      = (STATE.IDLE, st.set (workerStatusKey workerId) (natToChars STATE.IDLE)) := by
  have hnm : workerStatusKey workerId ∉ st.map Prod.fst :=
    (Store.get_eq_none_iff st _).mp hv
  have hpat : st.keysPat (workerStatusKey workerId) = [] := by
    unfold Store.keysPat
    rw [List.filter_eq_nil_iff]
    intro a ha hpa
    exact hnm (((globMatch_no_star _ a (star_not_mem_workerStatusKey workerId hw)).mp hpa) ▸ ha)
  unfold getWorkerStatus
  rw [if_neg (by rw [hpat]; simp)]

theorem processJob_trace_head (workerId jobId : JSStr) (st : Store) :
    (processJob workerId jobId st).2.1.head? = some (WEvent.processStart jobId) := by
  unfold processJob
  cases h : (st.keysPat (str "job:" ++ jobId ++ ['*'])).head? <;> simp [h]

/-! ### Claim theorems -/

/-- C1 (code bug shown at the failing input): in one invocation of
`assignAvailableWorkers` over a snapshot with two IDLE workers and a single
pending unclaimed job, BOTH workers receive a dispatch for the same
`jobId`, because `jobList.filter(...).shift()` removes the job only from
the fresh array built by `filter`, never from `jobList`, so the job is not
removed from consideration within the pass. -/
theorem C1_same_job_dispatched_to_two_workers :
    (WorkerPool.assignAvailableWorkers [str "w1", str "w2"]
        [(str "worker:w1:status", str "1"), (str "worker:w2:status", str "1"),
         (str "job:j1:0:5", str "x")]).2
      = [(str "w1", str "j1"), (str "w2", str "j1")] := by decide

/-- C2 (counterexample): two well-formed keys with equal priority `1` and
creation timestamps `9 < 10`; the claim says the `t1 = 9` entry sorts
first, but the string comparison of `"1:9"` and `"1:10"` puts the `t2 = 10`
entry first. -/
theorem C2_fifo_violated_at_unequal_digit_counts :
    (Job.sortListByKeys [str "job:a:1:9", str "job:b:1:10"]).map JobEntry.jobId
        = [str "b", str "a"] ∧
      parseNatChars (str "9") = some 9 ∧ parseNatChars (str "10") = some 10 ∧
      (9 : Nat) < 10 := by decide

/-- C2 (amended): `sortListByKeys` orders the parsed entries by ascending
lexicographic string comparison of `sortKey = priority:createdAt`, which
agrees with numeric priority-then-FIFO order only while the compared
numeric segments have equal digit counts; in particular, for priorities
`1` and `2` with the same `createdAt` the priority-`1` entry does come
first. -/
theorem C2_sorted_by_sortKey_string (keys : List JSStr) :
    List.Sorted sortKeyRel (Job.sortListByKeys keys) ∧
    (Job.sortListByKeys [str "job:a:2:100", str "job:b:1:100"]).map JobEntry.jobId
      = [str "b", str "a"] := by
  constructor
  · haveI : IsTotal JobEntry sortKeyRel := ⟨sortKeyRel_total⟩
    haveI : IsTrans JobEntry sortKeyRel := ⟨fun a b c => sortKeyRel_trans a b c⟩
    exact List.sorted_insertionSort sortKeyRel _
  · decide

/-- C5 (code bug shown at the failing input): an IDLE worker `w` receives a
dispatch for `j1` while the store holds no key matching `job:j1*`. The
`Job not found` throw escapes `processJob` (there is no try/catch), so the
run ends exceptionally, the trace records the throw, the persisted status
stays `BUSY` (`"2"`), and no `IDLE` status write ever happens — the claim's
required transition back to `IDLE` is missing from the code. -/
theorem C5_job_not_found_leaves_worker_busy :
    (onMessage (str "w") (str "j1") [(str "worker:w:status", str "1")]).2.2 = false ∧
    WEvent.jobNotFoundThrow (str "j1")
        ∈ (onMessage (str "w") (str "j1") [(str "worker:w:status", str "1")]).2.1 ∧
    Store.get (onMessage (str "w") (str "j1") [(str "worker:w:status", str "1")]).1
        (str "worker:w:status") = some (str "2") ∧
    WEvent.statusWrite (str "w") STATE.IDLE
        ∉ (onMessage (str "w") (str "j1") [(str "worker:w:status", str "1")]).2.1 := by
  decide

/-- C6 (code bug shown at the failing input): the store records `j1` as
worker `w1`'s current job (`worker:w1:job = "j1"`) and still holds the
`job:j1:0:5` record, yet the pass dispatches `j1` to the idle worker `w2`:
`getActiveWorkers` issues `GET` on the literal key `worker:*:job` (not a
`KEYS` scan), which returns nothing here, so claimed jobs are never
filtered out. -/
theorem C6_claimed_job_still_dispatched :
    Store.get
        [(str "worker:w1:status", str "2"), (str "worker:w1:job", str "j1"),
         (str "worker:w2:status", str "1"), (str "job:j1:0:5", str "x")]
        (str "worker:w1:job") = some (str "j1") ∧
    getActiveWorkers
        [(str "worker:w1:status", str "2"), (str "worker:w1:job", str "j1"),
         (str "worker:w2:status", str "1"), (str "job:j1:0:5", str "x")] = none ∧
    (WorkerPool.assignAvailableWorkers [str "w1", str "w2"]
        [(str "worker:w1:status", str "2"), (str "worker:w1:job", str "j1"),
         (str "worker:w2:status", str "1"), (str "job:j1:0:5", str "x")]).2
      = [(str "w2", str "j1")] := by decide

/-- C9 (counterexample): a `Job` created at time `5` and rebuilt through
`Job.fromExisting (Job.toJSON j)` at time `7` differs from the original:
the constructor re-stamps `createdAt = Date.now()` instead of restoring
the serialized value, so the record and its derived storage key change. -/
theorem C9_roundtrip_loses_createdAt :
    Job.fromExisting 7 (Job.toJSON (Job.create 5 (⟨7, str "e", some 3⟩ : CreateJob Nat) (str "a")))
        ≠ Job.create 5 (⟨7, str "e", some 3⟩ : CreateJob Nat) (str "a") ∧
    (Job.fromExisting 7 (Job.toJSON (Job.create 5 (⟨7, str "e", some 3⟩ : CreateJob Nat) (str "a")))).createdAt
        = 7 ∧
    Job.key (Job.fromExisting 7 (Job.toJSON (Job.create 5 (⟨7, str "e", some 3⟩ : CreateJob Nat) (str "a"))))
        ≠ Job.key (Job.create 5 (⟨7, str "e", some 3⟩ : CreateJob Nat) (str "a")) := by
  decide

/-- C9 (amended): the `toJSON` / `fromExisting` round trip preserves
`jobId`, `data`, `engine` and `priority`, but `createdAt` is re-stamped to
the reconstruction time; the original record and its derived storage key
are recovered exactly when reconstruction happens at the original creation
timestamp. -/
theorem C9_roundtrip_preserves_other_fields {α : Type} (now now2 : Nat)
    (config : CreateJob α) (jobId : JSStr) :
    (Job.fromExisting now2 (Job.toJSON (Job.create now config jobId))).jobId
        = (Job.create now config jobId).jobId ∧
    (Job.fromExisting now2 (Job.toJSON (Job.create now config jobId))).data
        = (Job.create now config jobId).data ∧
    (Job.fromExisting now2 (Job.toJSON (Job.create now config jobId))).engine
        = (Job.create now config jobId).engine ∧
    (Job.fromExisting now2 (Job.toJSON (Job.create now config jobId))).priority
        = (Job.create now config jobId).priority ∧
    (Job.fromExisting now2 (Job.toJSON (Job.create now config jobId))).createdAt = now2 ∧
    (now2 = now →
      Job.fromExisting now2 (Job.toJSON (Job.create now config jobId))
          = Job.create now config jobId ∧
      Job.key (Job.fromExisting now2 (Job.toJSON (Job.create now config jobId)))
          = Job.key (Job.create now config jobId)) := by
  refine ⟨rfl, rfl, rfl, rfl, rfl, ?_⟩
  rintro rfl
  exact ⟨rfl, rfl⟩

/-- C9 witness: the amended round-trip theorem applied at a concrete job
and at reconstruction time equal to the creation time. -/
theorem C9_roundtrip_preserves_other_fields_witness :
    Job.fromExisting 5 (Job.toJSON (Job.create 5 (⟨1, str "e", none⟩ : CreateJob Nat) (str "a")))
        = Job.create 5 (⟨1, str "e", none⟩ : CreateJob Nat) (str "a") :=
  ((C9_roundtrip_preserves_other_fields 5 5 (⟨1, str "e", none⟩ : CreateJob Nat)
    (str "a")).2.2.2.2.2 rfl).1

/-- C7 (confirmed): `onMessage` awaits the `BUSY` status write and the
`currentJobId` write, in that order, before invoking `processJob`: the run
equals the claim-writes followed by `processJob` on the written store, the
trace lists both writes ahead of every processing event, and the store
handed to `processJob` durably records `status = BUSY` and
`currentJobId = id`. -/
theorem C7_claim_persisted_before_processing (workerId jobId : JSStr) (st : Store) :
    onMessage workerId jobId st
      = ((processJob workerId jobId
            (setWorkerJob workerId jobId (setWorkerStatus workerId STATE.BUSY st))).1,
         WEvent.statusWrite workerId STATE.BUSY :: WEvent.jobWrite workerId jobId ::
           (processJob workerId jobId
             (setWorkerJob workerId jobId (setWorkerStatus workerId STATE.BUSY st))).2.1,
         (processJob workerId jobId
            (setWorkerJob workerId jobId (setWorkerStatus workerId STATE.BUSY st))).2.2) ∧
    Store.get (setWorkerJob workerId jobId (setWorkerStatus workerId STATE.BUSY st))
        (workerStatusKey workerId) = some (natToChars STATE.BUSY) ∧
    Store.get (setWorkerJob workerId jobId (setWorkerStatus workerId STATE.BUSY st))
        (workerJobKey workerId) = some jobId := by
  refine ⟨rfl, ?_, ?_⟩
  · unfold setWorkerJob setWorkerStatus
    rw [Store.get_set_ne _ _ _ _ (workerStatusKey_ne_workerJobKey workerId)]
    exact Store.get_set_self _ _ _
  · unfold setWorkerJob
    exact Store.get_set_self _ _ _

/-- C8 (confirmed): `sortListByKeys` is a total function (so it cannot
throw), every entry of its output is the successful parse of one input
key, and a malformed key — one whose parse fails because the `jobId`,
`priority` or `createdAt` segment is missing or empty — contributes no
entry to the output. -/
theorem C8_malformed_keys_excluded (keys : List JSStr) (k : JSStr)
    (hk : parseJobKey k = none) :
    (∀ e ∈ Job.sortListByKeys keys, e.jobKey ∈ keys ∧ parseJobKey e.jobKey = some e) ∧
    (∀ e ∈ Job.sortListByKeys keys, e.jobKey ≠ k) := by
  have hmem : ∀ e ∈ Job.sortListByKeys keys,
      e.jobKey ∈ keys ∧ parseJobKey e.jobKey = some e := by
    intro e he
    rw [Job.sortListByKeys, List.mem_insertionSort] at he
    rcases List.mem_filterMap.mp he with ⟨a, ha, hpa⟩
    have hj := parseJobKey_jobKey hpa
    rw [hj]
    exact ⟨ha, hpa⟩
  refine ⟨hmem, fun e he hek => ?_⟩
  have hp := (hmem e he).2
  rw [hek, hk] at hp
  exact Option.noConfusion hp

/-- C8 witness: the exclusion theorem applied to a concrete list holding
one well-formed key and one key missing its `createdAt` segment, at the
single entry the sort returns. -/
theorem C8_malformed_keys_excluded_witness :
    ({ jobId := str "b", jobKey := str "job:b:1:2", sortKey := str "1:2" } : JobEntry).jobKey
      ≠ str "job:a:1" :=
  (C8_malformed_keys_excluded [str "job:a:1", str "job:b:1:2"] (str "job:a:1")
    (by decide)).2
    { jobId := str "b", jobKey := str "job:b:1:2", sortKey := str "1:2" }
    (by decide)

/-- C3 (counterexample): `addJob` issues the `set` without awaiting it, so
at the moment the promise returned by `addJob` resolves the store does not
yet contain the job's key: on an empty store, a `getJobs()` at resolution
time returns `[]`, the event trace resolves the promise strictly before
the background `set` completes, and only the post-persist store holds the
key. -/
theorem C3_key_not_written_at_resolution :
    Store.get (WorkerPool.addJob ([] : Store) (⟨0, str "e", none⟩ : CreateJob Nat)
        (str "j1") 5 (fun _ => str "x")).storeAtResolve
        (WorkerPool.addJob ([] : Store) (⟨0, str "e", none⟩ : CreateJob Nat)
          (str "j1") 5 (fun _ => str "x")).jobKey = none ∧
    WorkerPool.getJobs (WorkerPool.addJob ([] : Store) (⟨0, str "e", none⟩ : CreateJob Nat)
        (str "j1") 5 (fun _ => str "x")).storeAtResolve = [] ∧
    (WorkerPool.addJob ([] : Store) (⟨0, str "e", none⟩ : CreateJob Nat)
        (str "j1") 5 (fun _ => str "x")).events
      = [PoolEvent.promiseResolved,
         PoolEvent.storeSetCompleted (str "job:j1:0:5"), PoolEvent.assignTriggered] ∧
    Store.get (WorkerPool.addJob ([] : Store) (⟨0, str "e", none⟩ : CreateJob Nat)
        (str "j1") 5 (fun _ => str "x")).storeAfterPersist (str "job:j1:0:5")
      = some (str "x") := by decide

/-- C3 (amended): the write is initiated by `addJob` and once the
background `set` completes the store holds the derived key, so a
`getJobs()` issued after the background persist (rather than at promise
resolution) includes the job. -/
theorem C3_job_retrievable_after_persist {α : Type} (st : Store)
    (jobDetails : CreateJob α) (jobId : JSStr) (now : Nat)
    (serialize : JobRec α → JSStr) (h1 : jobId ≠ []) (h2 : ':' ∉ jobId) :
    Store.get (WorkerPool.addJob st jobDetails jobId now serialize).storeAfterPersist
        (WorkerPool.addJob st jobDetails jobId now serialize).jobKey
      = some (serialize (WorkerPool.addJob st jobDetails jobId now serialize).job) ∧
    ∃ e ∈ WorkerPool.getJobs
        (WorkerPool.addJob st jobDetails jobId now serialize).storeAfterPersist,
      e.jobId = jobId ∧
      e.jobKey = (WorkerPool.addJob st jobDetails jobId now serialize).jobKey := by
  have hkey : (WorkerPool.addJob st jobDetails jobId now serialize).jobKey
      = str "job" ++ ':' :: (jobId ++ ':' ::
          (natToChars (jobDetails.priority.getD 0) ++ ':' :: natToChars now)) := rfl
  have hsplit : splitOnChar ':'
      (WorkerPool.addJob st jobDetails jobId now serialize).jobKey
      = [str "job", jobId, natToChars (jobDetails.priority.getD 0), natToChars now] := by
    rw [hkey, splitOnChar_append ':' (str "job") _ (by decide),
      splitOnChar_append ':' jobId _ h2,
      splitOnChar_append ':' (natToChars (jobDetails.priority.getD 0)) _
        (colon_not_mem_natToChars _),
      splitOnChar_no_sep ':' (natToChars now) (colon_not_mem_natToChars _)]
  have hparse : parseJobKey (WorkerPool.addJob st jobDetails jobId now serialize).jobKey
      = some { jobId := jobId,
               jobKey := (WorkerPool.addJob st jobDetails jobId now serialize).jobKey,
               sortKey := natToChars (jobDetails.priority.getD 0) ++ ':' :: natToChars now } := by
    unfold parseJobKey
    rw [hsplit]
    simp [h1, natToChars_ne_nil]
  have hget : Store.get
      (WorkerPool.addJob st jobDetails jobId now serialize).storeAfterPersist
      (WorkerPool.addJob st jobDetails jobId now serialize).jobKey
      = some (serialize (WorkerPool.addJob st jobDetails jobId now serialize).job) :=
    Store.get_set_self _ _ _
  refine ⟨hget, ?_⟩
  have hmemkeys : (WorkerPool.addJob st jobDetails jobId now serialize).jobKey
      ∈ ((WorkerPool.addJob st jobDetails jobId now serialize).storeAfterPersist).map
          Prod.fst :=
    Store.mem_keys_set _ _ _
  have hglob : globMatch (str "job:*")
      (WorkerPool.addJob st jobDetails jobId now serialize).jobKey = true := by
    rw [show str "job:*" = str "job:" ++ ['*'] from rfl]
    exact (globMatch_star_suffix (str "job:") _ (by decide)).mpr
      ⟨jobId ++ ':' :: (natToChars (jobDetails.priority.getD 0) ++ ':' :: natToChars now),
        rfl⟩
  have hpat : (WorkerPool.addJob st jobDetails jobId now serialize).jobKey
      ∈ ((WorkerPool.addJob st jobDetails jobId now serialize).storeAfterPersist).keysPat
          (str "job:*") := by
    unfold Store.keysPat
    exact List.mem_filter.mpr ⟨hmemkeys, hglob⟩
  refine ⟨{ jobId := jobId,
            jobKey := (WorkerPool.addJob st jobDetails jobId now serialize).jobKey,
            sortKey := natToChars (jobDetails.priority.getD 0) ++ ':' :: natToChars now },
          ?_, rfl, rfl⟩
  rw [WorkerPool.getJobs, Job.sortListByKeys, List.mem_insertionSort]
  exact List.mem_filterMap.mpr ⟨_, hpat, hparse⟩

/-- C3 witness: the amended theorem at a concrete job shows the key is
retrievable and `getJobs` includes the job once the background persist has
completed. -/
theorem C3_job_retrievable_after_persist_witness :
    ∃ e ∈ WorkerPool.getJobs
        (WorkerPool.addJob ([] : Store) (⟨0, str "e", none⟩ : CreateJob Nat)
          (str "j1") 5 (fun _ => str "x")).storeAfterPersist,
      e.jobId = str "j1" ∧
      e.jobKey = (WorkerPool.addJob ([] : Store) (⟨0, str "e", none⟩ : CreateJob Nat)
          (str "j1") 5 (fun _ => str "x")).jobKey :=
  (C3_job_retrievable_after_persist ([] : Store) (⟨0, str "e", none⟩ : CreateJob Nat)
    (str "j1") 5 (fun _ => str "x") (by decide) (by decide)).2

/-- C4 (confirmed): on startup with persisted status `BUSY`, `setupRedis`
resumes exactly the persisted job id when it is non-empty (the run equals
`processJob` on that id and the first trace event is its processing
start), and when the persisted id is missing or empty it logs an error,
resets the persisted status to `IDLE`, and starts processing nothing. -/
theorem C4_busy_startup_recovery (workerId : JSStr) (st : Store) (v : JSStr)
    (hw : '*' ∉ workerId)
    (hv : st.get (workerStatusKey workerId) = some v)
    (hbusy : statusOfValue (some v) = STATE.BUSY) :
    (∀ j, getWorkerJob workerId st = some j → j ≠ [] →
      setupRedis workerId st = processJob workerId j st ∧
      (setupRedis workerId st).2.1.head? = some (WEvent.processStart j)) ∧
    ((getWorkerJob workerId st).getD [] = [] →
      setupRedis workerId st
        = (setWorkerStatus workerId STATE.IDLE st,
            [WEvent.errorLog, WEvent.statusWrite workerId STATE.IDLE], true) ∧
      Store.get (setupRedis workerId st).1 (workerStatusKey workerId)
        = some (natToChars STATE.IDLE) ∧
      ∀ j, WEvent.processStart j ∉ (setupRedis workerId st).2.1) := by
  have hgs := getWorkerStatus_of_get_some workerId st v hw hv
  constructor
  · intro j hj hjne
    have heq : setupRedis workerId st = processJob workerId j st := by
      simp [setupRedis, hgs, hbusy, hj, hjne]
    refine ⟨heq, ?_⟩
    rw [heq]
    exact processJob_trace_head workerId j st
  · intro hj0
    have heq : setupRedis workerId st
        = (setWorkerStatus workerId STATE.IDLE st,
           [WEvent.errorLog, WEvent.statusWrite workerId STATE.IDLE], true) := by
      cases hj : getWorkerJob workerId st with
      | none => simp [setupRedis, hgs, hbusy, hj]
      | some j =>
        have hje : j = [] := by rw [hj] at hj0; simpa using hj0
        subst hje
        simp [setupRedis, hgs, hbusy, hj]
    refine ⟨heq, ?_, ?_⟩
    · rw [heq]
      unfold setWorkerStatus
      exact Store.get_set_self st _ _
    · intro j
      rw [heq]
      simp

/-- C4 witness: the recovery theorem applied to a concrete store recording
`BUSY` with job id `j5` shows the worker resumes exactly `j5`. -/
theorem C4_busy_startup_recovery_witness :
    setupRedis (str "w")
        [(str "worker:w:status", str "2"), (str "worker:w:job", str "j5"),
         (str "job:j5:0:1", str "x")]
      = processJob (str "w") (str "j5")
          [(str "worker:w:status", str "2"), (str "worker:w:job", str "j5"),
           (str "job:j5:0:1", str "x")] :=
  ((C4_busy_startup_recovery (str "w")
      [(str "worker:w:status", str "2"), (str "worker:w:job", str "j5"),
       (str "job:j5:0:1", str "x")]
      (str "2") (by decide) (by decide) (by decide)).1
    (str "j5") (by decide) (by decide)).1

/-- C10 (confirmed): `getWorkerStatus` always yields a defined status and
is not read-only: a missing `worker:{id}:status` key is written back as
`IDLE` and reported as `IDLE`; a stored value that does not parse to a
nonzero number — including the stored `INITIALIZING` code `0` — is
reported as `IDLE` with the store untouched; and the scheduler therefore
dispatches to a worker with no status record at all. -/
theorem C10_getWorkerStatus_defaults (workerId : JSStr) (st : Store)
    (hw : '*' ∉ workerId) :
    (st.get (workerStatusKey workerId) = none →
      getWorkerStatus workerId st
        = (STATE.IDLE, st.set (workerStatusKey workerId) (natToChars STATE.IDLE)) ∧
      Store.get (getWorkerStatus workerId st).2 (workerStatusKey workerId)
        = some (natToChars STATE.IDLE)) ∧
    (∀ v, st.get (workerStatusKey workerId) = some v →
      parseNatChars v = none ∨ parseNatChars v = some STATE.INITIALIZING →
      getWorkerStatus workerId st = (STATE.IDLE, st)) ∧
    statusOfValue (some (natToChars STATE.INITIALIZING)) = STATE.IDLE ∧
    (WorkerPool.assignAvailableWorkers [str "w"] [(str "job:j:0:1", str "v")]).2
      = [(str "w", str "j")] := by
  refine ⟨?_, ?_, by decide, by decide⟩
  · intro hnone
    have heq := getWorkerStatus_of_get_none workerId st hw hnone
    refine ⟨heq, ?_⟩
    rw [heq]
    exact Store.get_set_self st _ _
  · intro v hv hparse
    have heq := getWorkerStatus_of_get_some workerId st v hw hv
    rw [heq]
    have hvi : statusOfValue (some v) = STATE.IDLE := by
      rcases hparse with h | h <;>
        simp [statusOfValue, h, STATE.INITIALIZING, STATE.IDLE]
    rw [hvi]

/-- C10 witness: the defaulting theorem applied to the empty store shows
the missing status key is created as `IDLE`. -/
theorem C10_getWorkerStatus_defaults_witness :
    getWorkerStatus (str "w") ([] : Store)
      = (STATE.IDLE,
         Store.set ([] : Store) (workerStatusKey (str "w")) (natToChars STATE.IDLE)) :=
  ((C10_getWorkerStatus_defaults (str "w") ([] : Store) (by decide)).1 (by decide)).1
